import Mathlib

/-!
Verification of the optimistic list-delete mutation coordinator
(src/frontend/src/lib/list-delete.ts) and the URL-synchronized sort
controller (src/frontend/src/lib/use-url-sorting.ts).

The embedding models JavaScript runtime values explicitly (so that the
shape guards of the source can be stated faithfully), the query cache as
a keyed list of entries, and the URL query string at the level of its
ordered (name, value) parameter pairs, with get/set/delete mirroring
URLSearchParams semantics.
-/

/-- A JavaScript runtime value, as far as the coordinator inspects them:
null, undefined, booleans, numbers (modelled as integers), strings,
arrays and plain objects (ordered field lists, as JavaScript objects
enumerate own properties in insertion order). -/
inductive JsValue : Type where
  | vNull : JsValue
  | vUndefined : JsValue
  | vBool : Bool → JsValue
  | vNum : Int → JsValue
  | vStr : String → JsValue
  | vArr : List JsValue → JsValue
  | vObj : List (String × JsValue) → JsValue

open JsValue

/-! ### Generic keyed lists

The query cache (a map from query key to cached response) and the URL
query string (an ordered multimap of parameters) are both modelled as
lists of (key, value) pairs. `getFirst` is lookup of the first binding
(URLSearchParams.get / queryClient.getQueryData), `setFirst` replaces
the first binding in place, drops later duplicates and appends when the
key is absent (URLSearchParams.set / queryClient.setQueryData on a map
without duplicates), and `deleteAll` removes every binding
(URLSearchParams.delete). -/

def getFirst {α : Type} : List (String × α) → String → Option α
  | [], _ => none
  | (k', v) :: rest, k => if k' = k then some v else getFirst rest k

def deleteAll {α : Type} (ps : List (String × α)) (k : String) :
    List (String × α) :=
  ps.filter (fun kv => kv.1 != k)

def setFirst {α : Type} : List (String × α) → String → α → List (String × α)
  | [], k, v => [(k, v)]
  | (k', v') :: rest, k, v =>
    if k' = k then (k, v) :: deleteAll rest k
    else (k', v') :: setFirst rest k v

/-- JavaScript truthiness of a value. -/
def truthy : JsValue → Bool
  | vNull => false
  | vUndefined => false
  | vBool b => b
  | vNum n => n != 0
  | vStr s => s != ""
  | vArr _ => true
  | vObj _ => true

/-- Whether `typeof value` is the string "object" (true also for null
and for arrays, as in JavaScript). -/
def typeofIsObject : JsValue → Bool
  | vNull => true
  | vArr _ => true
  | vObj _ => true
  | _ => false

/-- Property access `value[key]` for the string keys the source uses:
a present field of an object is returned, everything else reads as
undefined. -/
def getField : JsValue → String → JsValue
  | vObj fields, key =>
    match getFirst fields key with
    | some v => v
    | none => vUndefined
  | _, _ => vUndefined

/-- `Array.isArray value`. -/
def isArrayVal : JsValue → Bool
  | vArr _ => true
  | _ => false

/-- Whether `typeof value` is the string "number". -/
def typeofIsNumber : JsValue → Bool
  | vNum _ => true
  | _ => false

/-- Strict equality `value === n` against a number literal `n`: true
exactly when the value is that number. -/
def strictEqNum (v : JsValue) (n : Int) : Bool :=
  match v with
  | vNum m => m == n
  | _ => false

/-- The effect of an object literal `{...fields, key: v}`: if the key is
already present its binding is overwritten in place, otherwise the pair
is appended at the end, as JavaScript object spread does. -/
def setKey (fields : List (String × JsValue)) (key : String) (v : JsValue) :
    List (String × JsValue) :=
  if fields.any (fun kv => decide (kv.1 = key)) then
    fields.map (fun kv => if kv.1 = key then (key, v) else kv)
  else
    fields ++ [(key, v)]

/-- The field list of an object value (the source only spreads values it
has already established to be objects). -/
def objFields : JsValue → List (String × JsValue)
  | vObj fields => fields
  | _ => []


/-! ### The optimistic list-delete mutation coordinator
(src/frontend/src/lib/list-delete.ts) -/

/-- The query-client state visible to the coordinator: the cached
entries per query key, plus logs of the keys whose in-flight queries
were cancelled and of the keys invalidated so far. -/
structure ClientState : Type where
  entries : List (String × JsValue)
  cancelled : List String
  invalidated : List String

/-- queryClient.getQueryData. -/
def getQueryData (s : ClientState) (key : String) : Option JsValue :=
  getFirst s.entries key

/-- queryClient.setQueryData. -/
def setQueryData (s : ClientState) (key : String) (v : JsValue) : ClientState :=
  { s with entries := setFirst s.entries key v }

/-- queryClient.cancelQueries (records the cancellation request). -/
def cancelQueries (s : ClientState) (key : String) : ClientState :=
  { s with cancelled := s.cancelled ++ [key] }

/-- queryClient.invalidateQueries (records the invalidation). -/
def invalidateQueries (s : ClientState) (key : String) : ClientState :=
  { s with invalidated := s.invalidated ++ [key] }

/-- The options of createOptimisticListDeleteMutation: the query key,
the item-identity accessor, the deletion-target accessor and the
optional override list of keys to invalidate on settle. Items and
mutation variables are JavaScript values. -/
structure DeleteMutationOptions : Type where
  queryKey : String
  getItemId : JsValue → String
  getDeleteId : JsValue → String
  invalidateQueryKeys : Option (List String)

/-- The mutation context returned by onMutate:
{ previous?: TResponse }. -/
structure MutationContext : Type where
  previous : Option JsValue

/-- isListPayload: the value is truthy, typeof "object", its items
field is an array and its total field is a number. -/
def isListPayload (value : JsValue) : Bool :=
  if !truthy value || !typeofIsObject value then false
  else isArrayVal (getField value "items") && typeofIsNumber (getField value "total")

/-- getListPayload: reads response.data and returns it when it passes
isListPayload, otherwise null (here: none). -/
def getListPayload (response : JsValue) : Option JsValue :=
  if !truthy response || !typeofIsObject response then none
  else
    let data := getField response "data"
    if isListPayload data then some data else none

/-- The items array of a payload that passed isListPayload. -/
def payloadItems (payload : JsValue) : List JsValue :=
  match getField payload "items" with
  | vArr xs => xs
  | _ => []

/-- The total field of a payload that passed isListPayload. -/
def payloadTotal (payload : JsValue) : Int :=
  match getField payload "total" with
  | vNum n => n
  | _ => 0

/-- keysToInvalidate: the provided invalidateQueryKeys when present and
non-empty, otherwise the mutation's own query key. -/
def keysToInvalidate (opts : DeleteMutationOptions) : List String :=
  match opts.invalidateQueryKeys with
  | some keys => if keys.length > 0 then keys else [opts.queryKey]
  | none => [opts.queryKey]

/-- onMutate: cancel in-flight queries for the key, snapshot the
current entry, and when it is truthy with status === 200 and carries a
well-shaped list payload, write back the entry with the deletion target
filtered out of items and total clamped at zero; always return the
snapshot as context. -/
def onMutate (opts : DeleteMutationOptions) (s : ClientState)
    (vars : JsValue) : ClientState × MutationContext :=
  let s := cancelQueries s opts.queryKey
  let previous := getQueryData s opts.queryKey
  match previous with
  | some prev =>
    if truthy prev && strictEqNum (getField prev "status") 200 then
      match getListPayload prev with
      | none => (s, ⟨some prev⟩)
      | some payload =>
        let deleteId := opts.getDeleteId vars
        let items := payloadItems payload
        let nextItems := items.filter (fun item => opts.getItemId item != deleteId)
        let removedCount : Nat := items.length - nextItems.length
        let newData := vObj (setKey
          (setKey (objFields payload) "items" (vArr nextItems))
          "total" (vNum (max 0 (payloadTotal payload - removedCount))))
        let next := vObj (setKey (objFields prev) "data" newData)
        (setQueryData s opts.queryKey next, ⟨some prev⟩)
    else (s, ⟨some prev⟩)
  | none => (s, ⟨none⟩)

/-- onError: when the context is present and holds a truthy previous
snapshot, write it back to the cache; otherwise do nothing. -/
def onError (opts : DeleteMutationOptions) (s : ClientState)
    (context : Option MutationContext) : ClientState :=
  match context with
  | some ctx =>
    match ctx.previous with
    | some prev => if truthy prev then setQueryData s opts.queryKey prev else s
    | none => s
  | none => s

/-- onSettled: invalidate every key of keysToInvalidate, in order,
regardless of the mutation outcome (the source hook takes no outcome
argument at all). -/
def onSettled (opts : DeleteMutationOptions) (s : ClientState) : ClientState :=
  (keysToInvalidate opts).foldl (fun acc key => invalidateQueries acc key) s

/-! ### The URL-synchronized sort controller
(src/frontend/src/lib/use-url-sorting.ts)

The query string is modelled at the level of its ordered (name, value)
parameter pairs, the representation URLSearchParams maintains; parse
and serialize between this list and the raw string are the inverse
bijections the browser API provides and are out of scope here. -/

/-- One entry of a TanStack SortingState: { id, desc }. -/
structure ColumnSort : Type where
  id : String
  desc : Bool
deriving DecidableEq, Repr

/-- SortingState: an ordered list of column sorts. -/
abbrev SortingState := List ColumnSort

/-- A query string as its ordered list of (name, value) pairs. -/
abbrev SearchParams := List (String × String)

/-- SORT_NONE_SENTINEL. -/
def SORT_NONE_SENTINEL : String := "none"

/-- resolveSortParam: "{p}_sort" for a truthy prefix p, else "sort"
(the empty string is falsy in JavaScript, like undefined). -/
def resolveSortParam (prefixOption : Option String) : String :=
  match prefixOption with
  | some p => if p = "" then "sort" else p ++ "_sort"
  | none => "sort"

/-- resolveDirectionParam: "{p}_dir" for a truthy prefix p, else
"dir". -/
def resolveDirectionParam (prefixOption : Option String) : String :=
  match prefixOption with
  | some p => if p = "" then "dir" else p ++ "_dir"
  | none => "dir"

/-- normalizeSorting: keep only the first entry whose id is in the
allow-list, as a one-element state; no allow-listed entry gives the
empty state. -/
def normalizeSorting (value : SortingState) (allowed : List String) :
    SortingState :=
  match value with
  | [] => []
  | sort :: rest =>
    if allowed.contains sort.id then [⟨sort.id, sort.desc⟩]
    else normalizeSorting rest allowed

/-- isSameSorting: equal lengths, and for non-empty states equal first
ids and first descending flags. -/
def isSameSorting (a b : SortingState) : Bool :=
  if a.length != b.length then false
  else
    match a, b with
    | [], _ => true
    | x :: _, y :: _ => x.id == y.id && x.desc == y.desc
    | _ :: _, [] => false

/-- The configuration of one useUrlSorting instance, together with the
path the hook reads from the router (used unchanged on navigation). -/
structure UrlSortingConfig : Type where
  allowedColumnIds : List String
  defaultSorting : SortingState
  prefixOption : Option String
  pathname : String

/-- normalizedDefaultSorting: the configured default, normalized
against the allow-list. -/
def normalizedDefaultSorting (cfg : UrlSortingConfig) : SortingState :=
  normalizeSorting cfg.defaultSorting cfg.allowedColumnIds

/-- The sorting memo, i.e. the read path: derive the sort state from
the current query parameters. An absent or empty sort parameter is
falsy and yields the normalized default; the sentinel yields the empty
state; a non-allow-listed value yields the normalized default; an
allow-listed value yields a single entry whose descending flag is the
strict equality of the direction parameter with "desc". -/
def readSorting (cfg : UrlSortingConfig) (params : SearchParams) :
    SortingState :=
  let sortValue := getFirst params (resolveSortParam cfg.prefixOption)
  match sortValue with
  | none => normalizedDefaultSorting cfg
  | some v =>
    if v = "" then normalizedDefaultSorting cfg
    else if v = SORT_NONE_SENTINEL then []
    else if !cfg.allowedColumnIds.contains v then normalizedDefaultSorting cfg
    else [⟨v, getFirst params (resolveDirectionParam cfg.prefixOption)
            == some "desc"⟩]

/-- The result of one onSortingChange call: the new held query string
(as parameters) and the router.replace navigation performed, if any,
as its (path, query parameters) target. -/
structure SortingChangeResult : Type where
  params : SearchParams
  nav : Option (String × SearchParams)
deriving DecidableEq, Repr

/-- onSortingChange: normalize the requested next state; if it is the
same sorting as the current read-path state, do nothing; otherwise
rewrite the two sort parameters on a clone of the current query string
(sentinel for the empty state, parameter deletion for the normalized
default, explicit column and direction otherwise) and navigate via
router.replace to the same pathname with the new query. -/
def onSortingChange (cfg : UrlSortingConfig) (params : SearchParams)
    (requested : SortingState) : SortingChangeResult :=
  let sorting := readSorting cfg params
  let nextSorting := normalizeSorting requested cfg.allowedColumnIds
  if isSameSorting nextSorting sorting then ⟨params, none⟩
  else
    let sortParam := resolveSortParam cfg.prefixOption
    let directionParam := resolveDirectionParam cfg.prefixOption
    let nextParams :=
      if nextSorting.length = 0 then
        deleteAll (setFirst params sortParam SORT_NONE_SENTINEL) directionParam
      else if isSameSorting nextSorting (normalizedDefaultSorting cfg) then
        deleteAll (deleteAll params sortParam) directionParam
      else
        match nextSorting with
        | primary :: _ =>
          setFirst (setFirst params sortParam primary.id) directionParam
            (if primary.desc then "desc" else "asc")
        | [] => params
    ⟨nextParams, some (cfg.pathname, nextParams)⟩


/-! ### Lemmas about keyed lists -/

theorem getFirst_deleteAll_self {α : Type} (ps : List (String × α)) (k : String) :
    getFirst (deleteAll ps k) k = none := by
  induction ps with
  | nil => rfl
  | cons hd tl ih =>
    obtain ⟨k', v'⟩ := hd
    by_cases h : k' = k
    · simpa [deleteAll, List.filter_cons, h] using ih
    · simpa [deleteAll, List.filter_cons, h, getFirst] using ih

theorem getFirst_deleteAll_ne {α : Type} (ps : List (String × α)) {k' k : String}
    (h : k' ≠ k) : getFirst (deleteAll ps k') k = getFirst ps k := by
  induction ps with
  | nil => rfl
  | cons hd tl ih =>
    obtain ⟨k0, v0⟩ := hd
    by_cases h0 : k0 = k'
    · subst h0
      simpa [deleteAll, List.filter_cons, getFirst, h, Ne.symm h] using ih
    · by_cases h1 : k0 = k
      · simp [deleteAll, List.filter_cons, h0, getFirst, h1, h, Ne.symm h]
      · simpa [deleteAll, List.filter_cons, h0, getFirst, h1, h, Ne.symm h] using ih

theorem getFirst_setFirst_self {α : Type} (ps : List (String × α)) (k : String)
    (v : α) : getFirst (setFirst ps k v) k = some v := by
  induction ps with
  | nil => simp [setFirst, getFirst]
  | cons hd tl ih =>
    obtain ⟨k', v'⟩ := hd
    by_cases h : k' = k
    · simp [setFirst, h, getFirst]
    · simpa [setFirst, h, getFirst] using ih

theorem getFirst_setFirst_ne {α : Type} (ps : List (String × α)) {k' k : String}
    (v : α) (h : k' ≠ k) : getFirst (setFirst ps k' v) k = getFirst ps k := by
  induction ps with
  | nil => simp [setFirst, getFirst, h]
  | cons hd tl ih =>
    obtain ⟨k0, v0⟩ := hd
    by_cases h0 : k0 = k'
    · subst h0
      simp [setFirst, getFirst, h, Ne.symm h, getFirst_deleteAll_ne tl h]
    · by_cases h1 : k0 = k
      · simp [setFirst, h0, getFirst, h1, h, Ne.symm h]
      · simpa [setFirst, h0, getFirst, h1] using ih

theorem deleteAll_cons {α : Type} (k0 : String) (v0 : α)
    (tl : List (String × α)) (k : String) :
    deleteAll ((k0, v0) :: tl) k
      = if k0 = k then deleteAll tl k else (k0, v0) :: deleteAll tl k := by
  by_cases h : k0 = k <;> simp [deleteAll, List.filter_cons, h]

theorem setFirst_eq_append {α : Type} (ps : List (String × α)) {k : String}
    (v : α) (h : getFirst ps k = none) : setFirst ps k v = ps ++ [(k, v)] := by
  induction ps with
  | nil => rfl
  | cons hd tl ih =>
    obtain ⟨k0, v0⟩ := hd
    by_cases h0 : k0 = k
    · simp [getFirst, h0] at h
    · simp [getFirst, h0] at h
      simp [setFirst, h0, ih h]

theorem deleteAll_eq_self {α : Type} (ps : List (String × α)) {k : String}
    (h : getFirst ps k = none) : deleteAll ps k = ps := by
  induction ps with
  | nil => rfl
  | cons hd tl ih =>
    obtain ⟨k0, v0⟩ := hd
    by_cases h0 : k0 = k
    · simp [getFirst, h0] at h
    · simp [getFirst, h0] at h
      rw [deleteAll_cons, if_neg h0, ih h]

theorem getFirst_append_of_none {α : Type} (ps qs : List (String × α))
    {k : String} (h : getFirst ps k = none) :
    getFirst (ps ++ qs) k = getFirst qs k := by
  induction ps with
  | nil => rfl
  | cons hd tl ih =>
    obtain ⟨k0, v0⟩ := hd
    by_cases h0 : k0 = k
    · simp [getFirst, h0] at h
    · simp [getFirst, h0] at h ⊢
      exact ih h

theorem filter_deleteAll {α : Type} (ps : List (String × α)) (k : String)
    (pred : String × α → Bool) (hk : ∀ w : α, pred (k, w) = false) :
    (deleteAll ps k).filter pred = ps.filter pred := by
  induction ps with
  | nil => rfl
  | cons hd tl ih =>
    obtain ⟨k0, v0⟩ := hd
    rw [deleteAll_cons]
    by_cases h0 : k0 = k
    · subst h0
      rw [if_pos rfl, ih, List.filter_cons]
      simp [hk]
    · rw [if_neg h0, List.filter_cons, List.filter_cons, ih]

theorem setFirst_cons {α : Type} (k0 : String) (v0 : α)
    (tl : List (String × α)) (k : String) (v : α) :
    setFirst ((k0, v0) :: tl) k v
      = if k0 = k then (k, v) :: deleteAll tl k
        else (k0, v0) :: setFirst tl k v := rfl

theorem filter_setFirst {α : Type} (ps : List (String × α)) (k : String)
    (v : α) (pred : String × α → Bool) (hk : ∀ w : α, pred (k, w) = false) :
    (setFirst ps k v).filter pred = ps.filter pred := by
  induction ps with
  | nil => simp [setFirst, List.filter_cons, hk]
  | cons hd tl ih =>
    obtain ⟨k0, v0⟩ := hd
    rw [setFirst_cons]
    by_cases h0 : k0 = k
    · subst h0
      rw [if_pos rfl, List.filter_cons, List.filter_cons]
      simp only [hk]
      rw [filter_deleteAll tl k0 pred hk]
      simp
    · rw [if_neg h0, List.filter_cons, List.filter_cons, ih]

theorem deleteAll_append {α : Type} (ps qs : List (String × α)) (k : String) :
    deleteAll (ps ++ qs) k = deleteAll ps k ++ deleteAll qs k := by
  simp [deleteAll, List.filter_append]

/-! ### Lemmas about sort states and parameter names -/

theorem sortParam_ne_directionParam (p : Option String) :
    resolveSortParam p ≠ resolveDirectionParam p := by
  match p with
  | none => simp [resolveSortParam, resolveDirectionParam]
  | some s =>
    by_cases h : s = ""
    · simp [resolveSortParam, resolveDirectionParam, h]
    · simp only [resolveSortParam, resolveDirectionParam, if_neg h]
      intro heq
      have hl := congrArg String.length heq
      simp [String.length_append] at hl
      exact absurd hl (by decide)

theorem normalizeSorting_shape (value : SortingState) (allowed : List String) :
    normalizeSorting value allowed = []
      ∨ ∃ e : ColumnSort, normalizeSorting value allowed = [e] ∧ e.id ∈ allowed := by
  induction value with
  | nil => exact Or.inl rfl
  | cons hd tl ih =>
    by_cases h : hd.id ∈ allowed
    · refine Or.inr ⟨⟨hd.id, hd.desc⟩, ?_, h⟩
      simp [normalizeSorting, h]
    · have heq : normalizeSorting (hd :: tl) allowed = normalizeSorting tl allowed := by
        simp [normalizeSorting, h]
      rw [heq]
      exact ih

theorem normalizeSorting_length_le (value : SortingState) (allowed : List String) :
    (normalizeSorting value allowed).length ≤ 1 := by
  rcases normalizeSorting_shape value allowed with h | ⟨e, h, _⟩ <;> simp [h]

theorem readSorting_shape (cfg : UrlSortingConfig) (params : SearchParams) :
    readSorting cfg params = []
      ∨ ∃ e : ColumnSort, readSorting cfg params = [e]
          ∧ e.id ∈ cfg.allowedColumnIds := by
  have hnd := normalizeSorting_shape cfg.defaultSorting cfg.allowedColumnIds
  unfold readSorting
  cases getFirst params (resolveSortParam cfg.prefixOption) with
  | none => exact hnd
  | some v =>
    dsimp only
    split_ifs with h0 h1 h2
    · exact hnd
    · exact Or.inl rfl
    · exact hnd
    · refine Or.inr ⟨⟨v, _⟩, rfl, ?_⟩
      simpa using h2

theorem readSorting_length_le (cfg : UrlSortingConfig) (params : SearchParams) :
    (readSorting cfg params).length ≤ 1 := by
  rcases readSorting_shape cfg params with h | ⟨e, h, _⟩ <;> simp [h]

theorem isSameSorting_self (a : SortingState) : isSameSorting a a = true := by
  cases a <;> simp [isSameSorting]

theorem isSameSorting_iff {a b : SortingState} (ha : a.length ≤ 1)
    (hb : b.length ≤ 1) : isSameSorting a b = true ↔ a = b := by
  match a, b with
  | [], [] => simp [isSameSorting]
  | [], y :: ys => simp [isSameSorting]
  | x :: xs, [] => simp [isSameSorting]
  | x :: xs, y :: ys =>
    have hxs : xs = [] := by
      cases xs
      · rfl
      · simp at ha
    have hys : ys = [] := by
      cases ys
      · rfl
      · simp at hb
    subst hxs
    subst hys
    cases x
    cases y
    simp [isSameSorting]

/-! ### Lemmas about object fields and the client state -/

theorem setKey_cons_ne {k0 k : String} (v0 : JsValue)
    (tl : List (String × JsValue)) (v : JsValue) (h : k0 ≠ k) :
    setKey ((k0, v0) :: tl) k v = (k0, v0) :: setKey tl k v := by
  by_cases ha : tl.any (fun kv => decide (kv.1 = k)) <;>
    simp [setKey, List.any_cons, h, ha]

theorem setKey_cons_eq {k0 k : String} (v0 : JsValue)
    (tl : List (String × JsValue)) (v : JsValue) (h : k0 = k) :
    setKey ((k0, v0) :: tl) k v
      = (k, v) :: tl.map (fun kv => if kv.1 = k then (k, v) else kv) := by
  simp [setKey, List.any_cons, h]

theorem getFirst_setKey_self (fields : List (String × JsValue)) (k : String)
    (v : JsValue) : getFirst (setKey fields k v) k = some v := by
  induction fields with
  | nil => simp [setKey, getFirst]
  | cons hd tl ih =>
    obtain ⟨k0, v0⟩ := hd
    by_cases h : k0 = k
    · rw [setKey_cons_eq v0 tl v h]
      simp [getFirst]
    · rw [setKey_cons_ne v0 tl v h]
      simpa [getFirst, h] using ih

theorem getFirst_cons {α : Type} (k0 : String) (v0 : α)
    (tl : List (String × α)) (k : String) :
    getFirst ((k0, v0) :: tl) k = if k0 = k then some v0 else getFirst tl k := rfl

theorem getFirst_map_setKey {k k2 : String} (v : JsValue)
    (tl : List (String × JsValue)) (h : k2 ≠ k) :
    getFirst (tl.map (fun kv => if kv.1 = k then (k, v) else kv)) k2
      = getFirst tl k2 := by
  induction tl with
  | nil => rfl
  | cons hd tl2 ih =>
    obtain ⟨k0, v0⟩ := hd
    rw [List.map_cons]
    by_cases h0 : k0 = k
    · subst h0
      rw [if_pos rfl, getFirst_cons, if_neg (Ne.symm h), ih, getFirst_cons,
        if_neg (Ne.symm h)]
    · rw [if_neg h0, getFirst_cons, getFirst_cons]
      by_cases h2 : k0 = k2
      · rw [if_pos h2, if_pos h2]
      · rw [if_neg h2, if_neg h2, ih]

theorem getFirst_setKey_ne (fields : List (String × JsValue)) {k k2 : String}
    (v : JsValue) (h : k2 ≠ k) :
    getFirst (setKey fields k v) k2 = getFirst fields k2 := by
  induction fields with
  | nil => simp [setKey, getFirst, Ne.symm h]
  | cons hd tl ih =>
    obtain ⟨k0, v0⟩ := hd
    by_cases h0 : k0 = k
    · rw [setKey_cons_eq v0 tl v h0]
      subst h0
      simp [getFirst, Ne.symm h, getFirst_map_setKey v tl h]
    · rw [setKey_cons_ne v0 tl v h0]
      by_cases h2 : k0 = k2
      · simp [getFirst, h2]
      · simpa [getFirst, h2] using ih

theorem getField_setKey_self (fields : List (String × JsValue)) (k : String)
    (v : JsValue) : getField (vObj (setKey fields k v)) k = v := by
  show (match getFirst (setKey fields k v) k with
    | some w => w
    | none => vUndefined) = v
  rw [getFirst_setKey_self]

theorem getField_setKey_ne (fields : List (String × JsValue)) {k k2 : String}
    (v : JsValue) (h : k2 ≠ k) :
    getField (vObj (setKey fields k v)) k2 = getField (vObj fields) k2 := by
  show (match getFirst (setKey fields k v) k2 with
    | some w => w
    | none => vUndefined)
    = (match getFirst fields k2 with
    | some w => w
    | none => vUndefined)
  rw [getFirst_setKey_ne fields v h]

theorem getQueryData_setQueryData_self (s : ClientState) (k : String)
    (v : JsValue) : getQueryData (setQueryData s k v) k = some v :=
  getFirst_setFirst_self s.entries k v

theorem getQueryData_cancelQueries (s : ClientState) (k key : String) :
    getQueryData (cancelQueries s k) key = getQueryData s key := rfl

theorem foldl_invalidateQueries (keys : List String) (s : ClientState) :
    keys.foldl (fun acc key => invalidateQueries acc key) s
      = ⟨s.entries, s.cancelled, s.invalidated ++ keys⟩ := by
  induction keys generalizing s with
  | nil => simp
  | cons k ks ih =>
    rw [List.foldl_cons, ih]
    simp [invalidateQueries]

/-! ### Unfolding lemmas for onMutate -/

theorem truthy_of_status {prev : JsValue} {n : Int}
    (h : strictEqNum (getField prev "status") n = true) : truthy prev = true := by
  cases prev <;> simp [getField, strictEqNum, truthy] at h ⊢

theorem onMutate_none (opts : DeleteMutationOptions) (s : ClientState)
    (vars : JsValue) (hprev : getQueryData s opts.queryKey = none) :
    onMutate opts s vars = (cancelQueries s opts.queryKey, ⟨none⟩) := by
  simp only [onMutate, getQueryData_cancelQueries, hprev]

theorem onMutate_skip (opts : DeleteMutationOptions) (s : ClientState)
    (vars : JsValue) {prev : JsValue}
    (hprev : getQueryData s opts.queryKey = some prev)
    (hcond : truthy prev = false
      ∨ strictEqNum (getField prev "status") 200 = false
      ∨ getListPayload prev = none) :
    onMutate opts s vars = (cancelQueries s opts.queryKey, ⟨some prev⟩) := by
  simp only [onMutate, getQueryData_cancelQueries, hprev]
  rcases hcond with h | h | h
  · simp [h]
  · simp [h]
  · by_cases hg : truthy prev && strictEqNum (getField prev "status") 200
    · simp [hg, h]
    · simp [hg]

theorem onMutate_write (opts : DeleteMutationOptions) (s : ClientState)
    (vars : JsValue) {prev payload : JsValue}
    (hprev : getQueryData s opts.queryKey = some prev)
    (hstatus : strictEqNum (getField prev "status") 200 = true)
    (hpl : getListPayload prev = some payload) :
    onMutate opts s vars =
      (setQueryData (cancelQueries s opts.queryKey) opts.queryKey
        (vObj (setKey (objFields prev) "data"
          (vObj (setKey (setKey (objFields payload) "items"
              (vArr ((payloadItems payload).filter
                (fun item => opts.getItemId item != opts.getDeleteId vars))))
            "total" (vNum (max 0 (payloadTotal payload -
              ((payloadItems payload).length -
                ((payloadItems payload).filter
                  (fun item =>
                    opts.getItemId item != opts.getDeleteId vars)).length
                : Nat)))))))),
       ⟨some prev⟩) := by
  have htruthy : truthy prev = true := truthy_of_status hstatus
  simp only [onMutate, getQueryData_cancelQueries, hprev]
  simp [htruthy, hstatus, hpl]

theorem onError_of_some (opts : DeleteMutationOptions) (s : ClientState)
    (v : JsValue) :
    getQueryData (onError opts s (some ⟨some v⟩)) opts.queryKey
      = if truthy v then some v else getQueryData s opts.queryKey := by
  unfold onError
  by_cases h : truthy v <;> simp [h, getQueryData_setQueryData_self]

/-! ### Claims -/

/-- C2: for every mutation attempt whose context holds a previous
snapshot, running onError with that context leaves the cache entry for
the query key equal to the pre-mutation snapshot exactly, whatever
optimistic rewrite onMutate performed in between; the context snapshot
is the pre-mutation entry itself. -/
theorem C2_onError_restores_snapshot (opts : DeleteMutationOptions)
    (s : ClientState) (vars : JsValue)
    (h : ((onMutate opts s vars).2).previous.isSome = true) :
    getQueryData
        (onError opts (onMutate opts s vars).1 (some (onMutate opts s vars).2))
        opts.queryKey
      = getQueryData s opts.queryKey
    ∧ ((onMutate opts s vars).2).previous = getQueryData s opts.queryKey := by
  cases hprev : getQueryData s opts.queryKey with
  | none =>
    rw [onMutate_none opts s vars hprev] at h
    simp at h
  | some v =>
    by_cases hst : strictEqNum (getField v "status") 200 = true
    · cases hpl : getListPayload v with
      | none =>
        rw [onMutate_skip opts s vars hprev (Or.inr (Or.inr hpl))]
        have htruthy : truthy v = true := truthy_of_status hst
        rw [onError_of_some, if_pos htruthy]
        exact ⟨rfl, rfl⟩
      | some payload =>
        rw [onMutate_write opts s vars hprev hst hpl]
        have htruthy : truthy v = true := truthy_of_status hst
        rw [onError_of_some, if_pos htruthy]
        exact ⟨rfl, rfl⟩
    · rw [onMutate_skip opts s vars hprev
        (Or.inr (Or.inl (by simpa using hst)))]
      rw [onError_of_some]
      by_cases htruthy : truthy v = true
      · rw [if_pos htruthy]
        exact ⟨rfl, rfl⟩
      · rw [if_neg (by simpa using htruthy)]
        exact ⟨hprev, rfl⟩

/-- C2 witness: concrete run over a cache holding a non-200 entry. -/
theorem C2_witness :
    getQueryData
        (onError ⟨"k", fun _ => "", fun _ => "", none⟩
          (onMutate ⟨"k", fun _ => "", fun _ => "", none⟩
            ⟨[("k", vObj [("status", vNum 404)])], [], []⟩ vNull).1
          (some (onMutate ⟨"k", fun _ => "", fun _ => "", none⟩
            ⟨[("k", vObj [("status", vNum 404)])], [], []⟩ vNull).2))
        "k"
      = getQueryData ⟨[("k", vObj [("status", vNum 404)])], [], []⟩ "k"
    ∧ ((onMutate ⟨"k", fun _ => "", fun _ => "", none⟩
          ⟨[("k", vObj [("status", vNum 404)])], [], []⟩ vNull).2).previous
      = getQueryData ⟨[("k", vObj [("status", vNum 404)])], [], []⟩ "k" :=
  C2_onError_restores_snapshot
    ⟨"k", fun _ => "", fun _ => "", none⟩
    ⟨[("k", vObj [("status", vNum 404)])], [], []⟩ vNull (by rfl)

/-- C3: if at onMutate the cache entry for the query key is absent, or
its status is not strictly 200, or its payload fails the {items, total}
shape guard, then no cache write occurs (the entries are left exactly
as they were) and onMutate still returns a context carrying whatever
entry (possibly undefined) was present. -/
theorem C3_skip_leaves_cache_unchanged (opts : DeleteMutationOptions)
    (s : ClientState) (vars : JsValue)
    (h : getQueryData s opts.queryKey = none
      ∨ ∃ v : JsValue, getQueryData s opts.queryKey = some v
          ∧ (strictEqNum (getField v "status") 200 = false
              ∨ getListPayload v = none)) :
    ((onMutate opts s vars).1).entries = s.entries
    ∧ (onMutate opts s vars).2 = ⟨getQueryData s opts.queryKey⟩ := by
  rcases h with hnone | ⟨v, hv, hcond⟩
  · rw [onMutate_none opts s vars hnone, hnone]
    exact ⟨rfl, rfl⟩
  · rw [onMutate_skip opts s vars hv (Or.inr hcond), hv]
    exact ⟨rfl, rfl⟩

/-- C3 witness: concrete run over a cache whose entry has a malformed
payload (items is not an array). -/
theorem C3_witness :
    ((onMutate ⟨"k", fun _ => "", fun _ => "", none⟩
        ⟨[("k", vObj [("status", vNum 200), ("data", vObj [("items", vNum 3),
          ("total", vNum 1)])])], [], []⟩ vNull).1).entries
      = [("k", vObj [("status", vNum 200), ("data", vObj [("items", vNum 3),
          ("total", vNum 1)])])]
    ∧ (onMutate ⟨"k", fun _ => "", fun _ => "", none⟩
        ⟨[("k", vObj [("status", vNum 200), ("data", vObj [("items", vNum 3),
          ("total", vNum 1)])])], [], []⟩ vNull).2
      = ⟨getQueryData ⟨[("k", vObj [("status", vNum 200),
          ("data", vObj [("items", vNum 3), ("total", vNum 1)])])], [], []⟩
          "k"⟩ :=
  C3_skip_leaves_cache_unchanged
    ⟨"k", fun _ => "", fun _ => "", none⟩
    ⟨[("k", vObj [("status", vNum 200), ("data", vObj [("items", vNum 3),
      ("total", vNum 1)])])], [], []⟩ vNull
    (Or.inr ⟨_, rfl, Or.inr rfl⟩)

/-- C4 counterexample: with an explicitly provided empty
invalidateQueryKeys list, onSettled does not invalidate exactly the
keys of that list (none): it falls back to the mutation's own query
key. -/
theorem C4_counterexample :
    (onSettled ⟨"items", fun _ => "", fun _ => "", some []⟩
        ⟨[], [], []⟩).invalidated = ["items"]
    ∧ (["items"] : List String) ≠ ([] : List String) :=
  ⟨rfl, by simp⟩

/-- C4 amended: onSettled touches no cache entries and cancels nothing;
it appends exactly the keys of keysToInvalidate to the invalidation log,
in order, once per occurrence, where keysToInvalidate is the provided
invalidateQueryKeys list when that list is provided and non-empty, and
the singleton of the mutation's own queryKey when the option is absent
or the provided list is empty. onSettled takes no outcome argument, so
this holds regardless of success or failure. -/
theorem C4_onSettled_invalidates_configured_keys
    (opts : DeleteMutationOptions) (s : ClientState) :
    (onSettled opts s).invalidated = s.invalidated ++ keysToInvalidate opts
    ∧ (onSettled opts s).entries = s.entries
    ∧ (onSettled opts s).cancelled = s.cancelled
    ∧ (opts.invalidateQueryKeys = none →
        keysToInvalidate opts = [opts.queryKey])
    ∧ (∀ keys : List String, opts.invalidateQueryKeys = some keys →
        keys ≠ [] → keysToInvalidate opts = keys)
    ∧ (opts.invalidateQueryKeys = some [] →
        keysToInvalidate opts = [opts.queryKey]) := by
  refine ⟨?_, ?_, ?_, ?_, ?_, ?_⟩
  · rw [show onSettled opts s
        = (keysToInvalidate opts).foldl
            (fun acc key => invalidateQueries acc key) s from rfl,
      foldl_invalidateQueries]
  · rw [show onSettled opts s
        = (keysToInvalidate opts).foldl
            (fun acc key => invalidateQueries acc key) s from rfl,
      foldl_invalidateQueries]
  · rw [show onSettled opts s
        = (keysToInvalidate opts).foldl
            (fun acc key => invalidateQueries acc key) s from rfl,
      foldl_invalidateQueries]
  · intro h
    simp [keysToInvalidate, h]
  · intro keys h hne
    simp [keysToInvalidate, h, List.length_pos.mpr hne]
  · intro h
    simp [keysToInvalidate, h]

/-- C4 witness: a provided two-key list is invalidated exactly, in
order. -/
theorem C4_witness :
    (onSettled ⟨"items", fun _ => "", fun _ => "", some ["items", "boards"]⟩
        ⟨[], [], []⟩).invalidated = ["items", "boards"] := by
  have h := C4_onSettled_invalidates_configured_keys
    ⟨"items", fun _ => "", fun _ => "", some ["items", "boards"]⟩ ⟨[], [], []⟩
  rw [h.1, h.2.2.2.2.1 ["items", "boards"] rfl (by simp)]
  rfl

theorem length_sub_filter_bne (items : List JsValue) (f : JsValue → String)
    (d : String) :
    items.length - (items.filter (fun it => f it != d)).length
      = items.countP (fun it => f it == d) := by
  have hfun : (fun a : JsValue => decide ¬((f a == d) = true))
      = (fun it : JsValue => f it != d) := by
    funext a
    by_cases h : f a = d <;> simp [h]
  have h2 := items.length_eq_countP_add_countP (fun it => f it == d)
  rw [List.countP_eq_length_filter (fun a => decide ¬((f a == d) = true)),
    hfun] at h2
  omega

/-- C1 counterexample: the claim says exactly zero or one item is
removed per delete call. With two items bearing the same identity the
source removes both and decrements total by two; and with a cached
negative total, deleting a non-existent identity clamps total to zero
rather than leaving it unchanged. -/
theorem C1_counterexample :
    (getQueryData
        (onMutate ⟨"items",
            fun it => match getField it "id" with | vStr str => str | _ => "",
            fun w => match getField w "id" with | vStr str => str | _ => "",
            none⟩
          ⟨[("items", vObj [("status", vNum 200), ("data", vObj
            [("items", vArr [vObj [("id", vStr "a")],
              vObj [("id", vStr "a"), ("label", vStr "x")]]),
             ("total", vNum 2)])])], [], []⟩
          (vObj [("id", vStr "a")])).1 "items").map
        (fun next => ((payloadItems (getField next "data")).length,
          payloadTotal (getField next "data")))
      = some (0, 0)
    ∧ (payloadItems (vObj [("items", vArr [vObj [("id", vStr "a")],
        vObj [("id", vStr "a"), ("label", vStr "x")]]),
        ("total", vNum 2)])).length = 2
    ∧ (getQueryData
        (onMutate ⟨"items",
            fun it => match getField it "id" with | vStr str => str | _ => "",
            fun w => match getField w "id" with | vStr str => str | _ => "",
            none⟩
          ⟨[("items", vObj [("status", vNum 200), ("data", vObj
            [("items", vArr []), ("total", vNum (-1))])])], [], []⟩
          (vObj [("id", vStr "a")])).1 "items").map
        (fun next => payloadTotal (getField next "data"))
      = some 0
    ∧ (0 : Int) ≠ -1 := by
  refine ⟨rfl, rfl, rfl, by decide⟩

/-- C1 amended: for every cache entry with status === 200 and a payload
matching the {items, total} shape, onMutate filters out every item
whose identity equals the deletion target (removedCount equals the
number of matching items, so exactly one is removed when exactly one
item bears that identity and zero when none does), and sets
total = max(0, total - removedCount), so total never goes below zero;
deleting an identity matching no item leaves items unchanged and, when
the cached total is non-negative, leaves total unchanged as well. -/
theorem C1_onMutate_filters_by_identity (opts : DeleteMutationOptions)
    (s : ClientState) (vars : JsValue) {prev payload : JsValue}
    (hprev : getQueryData s opts.queryKey = some prev)
    (hstatus : strictEqNum (getField prev "status") 200 = true)
    (hpl : getListPayload prev = some payload) :
    ∃ next : JsValue,
      getQueryData (onMutate opts s vars).1 opts.queryKey = some next
      ∧ payloadItems (getField next "data")
          = (payloadItems payload).filter
              (fun item => opts.getItemId item != opts.getDeleteId vars)
      ∧ payloadTotal (getField next "data")
          = max 0 (payloadTotal payload
              - ((payloadItems payload).countP
                  (fun item =>
                    opts.getItemId item == opts.getDeleteId vars) : Nat))
      ∧ 0 ≤ payloadTotal (getField next "data")
      ∧ ((onMutate opts s vars).2).previous = some prev
      ∧ ((∀ item ∈ payloadItems payload,
            opts.getItemId item ≠ opts.getDeleteId vars) →
          payloadItems (getField next "data") = payloadItems payload
          ∧ (0 ≤ payloadTotal payload →
              payloadTotal (getField next "data") = payloadTotal payload)) := by
  rw [onMutate_write opts s vars hprev hstatus hpl]
  have hdata : getField (vObj (setKey (objFields prev) "data"
      (vObj (setKey (setKey (objFields payload) "items"
          (vArr ((payloadItems payload).filter
            (fun item => opts.getItemId item != opts.getDeleteId vars))))
        "total" (vNum (max 0 (payloadTotal payload -
          ((payloadItems payload).length -
            ((payloadItems payload).filter
              (fun item =>
                opts.getItemId item != opts.getDeleteId vars)).length
            : Nat)))))))) "data"
      = vObj (setKey (setKey (objFields payload) "items"
          (vArr ((payloadItems payload).filter
            (fun item => opts.getItemId item != opts.getDeleteId vars))))
        "total" (vNum (max 0 (payloadTotal payload -
          ((payloadItems payload).length -
            ((payloadItems payload).filter
              (fun item =>
                opts.getItemId item != opts.getDeleteId vars)).length
            : Nat))))) := getField_setKey_self _ _ _
  refine ⟨_, getQueryData_setQueryData_self _ _ _, ?_, ?_, ?_, rfl, ?_⟩
  · rw [hdata]
    show (match getField (vObj (setKey (setKey (objFields payload) "items" _)
        "total" _)) "items" with
      | vArr xs => xs
      | _ => ([] : List JsValue)) = _
    rw [getField_setKey_ne _ _ (by decide), getField_setKey_self]
  · rw [hdata]
    show (match getField (vObj (setKey (setKey (objFields payload) "items" _)
        "total" _)) "total" with
      | vNum n => n
      | _ => (0 : Int)) = _
    rw [getField_setKey_self]
    rw [length_sub_filter_bne (payloadItems payload) opts.getItemId
      (opts.getDeleteId vars)]
  · rw [hdata]
    show (0 : Int) ≤ (match getField (vObj (setKey (setKey
        (objFields payload) "items" _) "total" _)) "total" with
      | vNum n => n
      | _ => (0 : Int))
    rw [getField_setKey_self]
    exact le_max_left 0 _
  · intro hno
    constructor
    · rw [hdata]
      show (match getField (vObj (setKey (setKey (objFields payload) "items" _)
          "total" _)) "items" with
        | vArr xs => xs
        | _ => ([] : List JsValue)) = _
      rw [getField_setKey_ne _ _ (by decide), getField_setKey_self]
      exact List.filter_eq_self.mpr
        (fun a ha => by simpa [bne_iff_ne] using hno a ha)
    · intro hpos
      rw [hdata]
      show (match getField (vObj (setKey (setKey (objFields payload) "items" _)
          "total" _)) "total" with
        | vNum n => n
        | _ => (0 : Int)) = _
      rw [getField_setKey_self]
      have hfe : (payloadItems payload).filter
          (fun item => opts.getItemId item != opts.getDeleteId vars)
          = payloadItems payload :=
        List.filter_eq_self.mpr
          (fun a ha => by simpa [bne_iff_ne] using hno a ha)
      rw [hfe]
      simp [max_eq_right hpos]

/-- C1 witness: deleting the item with identity "a" from a two-item
200 entry leaves exactly the other item and total 1. -/
theorem C1_witness :
    ∃ next : JsValue,
      getQueryData
          (onMutate ⟨"items",
              fun it => match getField it "id" with | vStr str => str | _ => "",
              fun w => match getField w "id" with | vStr str => str | _ => "",
              none⟩
            ⟨[("items", vObj [("status", vNum 200), ("data", vObj
              [("items", vArr [vObj [("id", vStr "a")],
                vObj [("id", vStr "b")]]),
               ("total", vNum 2)])])], [], []⟩
            (vObj [("id", vStr "a")])).1 "items"
        = some next
      ∧ payloadItems (getField next "data") = [vObj [("id", vStr "b")]]
      ∧ payloadTotal (getField next "data") = 1 := by
  obtain ⟨next, h1, h2, h3, _, _, _⟩ :=
    C1_onMutate_filters_by_identity
      ⟨"items",
        fun it => match getField it "id" with | vStr str => str | _ => "",
        fun w => match getField w "id" with | vStr str => str | _ => "",
        none⟩
      ⟨[("items", vObj [("status", vNum 200), ("data", vObj
        [("items", vArr [vObj [("id", vStr "a")], vObj [("id", vStr "b")]]),
         ("total", vNum 2)])])], [], []⟩
      (vObj [("id", vStr "a")]) rfl rfl rfl
  refine ⟨next, h1, ?_, ?_⟩
  · rw [h2]
    rfl
  · rw [h3]
    decide

/-! ### Read-path computation lemmas -/

theorem readSorting_of_none (cfg : UrlSortingConfig) (params : SearchParams)
    (hv : getFirst params (resolveSortParam cfg.prefixOption) = none) :
    readSorting cfg params = normalizedDefaultSorting cfg := by
  simp only [readSorting, hv]

theorem readSorting_of_empty (cfg : UrlSortingConfig) (params : SearchParams)
    (hv : getFirst params (resolveSortParam cfg.prefixOption) = some "") :
    readSorting cfg params = normalizedDefaultSorting cfg := by
  simp only [readSorting, hv]
  simp

theorem readSorting_of_sentinel (cfg : UrlSortingConfig)
    (params : SearchParams)
    (hv : getFirst params (resolveSortParam cfg.prefixOption)
      = some SORT_NONE_SENTINEL) :
    readSorting cfg params = [] := by
  simp only [readSorting, hv]
  simp [SORT_NONE_SENTINEL]

theorem readSorting_of_not_allowed (cfg : UrlSortingConfig)
    (params : SearchParams) {v : String}
    (hv : getFirst params (resolveSortParam cfg.prefixOption) = some v)
    (hne : v ≠ "") (hns : v ≠ SORT_NONE_SENTINEL)
    (hnm : v ∉ cfg.allowedColumnIds) :
    readSorting cfg params = normalizedDefaultSorting cfg := by
  simp only [readSorting, hv]
  rw [if_neg hne, if_neg hns, if_pos (by simpa using hnm)]

theorem readSorting_of_allowed (cfg : UrlSortingConfig)
    (params : SearchParams) {v : String}
    (hv : getFirst params (resolveSortParam cfg.prefixOption) = some v)
    (hne : v ≠ "") (hns : v ≠ SORT_NONE_SENTINEL)
    (hmem : v ∈ cfg.allowedColumnIds) :
    readSorting cfg params
      = [⟨v, getFirst params (resolveDirectionParam cfg.prefixOption)
          == some "desc"⟩] := by
  simp only [readSorting, hv]
  rw [if_neg hne, if_neg hns, if_neg (by simpa using hmem)]

/-- C5 counterexample: with the empty string in the allow-list and the
URL carrying an empty-valued sort parameter, the claim as stated picks
the single-entry branch, but the source treats the empty value as falsy
and returns the normalized default. -/
theorem C5_counterexample :
    readSorting ⟨[""], [], none, "/p"⟩ [("sort", "")] = []
    ∧ ([] : SortingState) ≠ [⟨"", false⟩] :=
  ⟨rfl, by decide⟩

/-- C5 amended: the read path is total, with this case analysis: an
absent sort parameter, or one whose value is the empty string, yields
the normalized default (the default reduced to at most its first
allow-listed entry, an invalid default reducing to empty); the sentinel
"none" yields the empty sort state; a non-allow-listed value yields the
normalized default; an allow-listed value yields the single entry whose
descending flag is the strict equality of the direction parameter with
"desc". -/
theorem C5_read_path_case_analysis (cfg : UrlSortingConfig)
    (params : SearchParams) :
    (getFirst params (resolveSortParam cfg.prefixOption) = none →
      readSorting cfg params = normalizedDefaultSorting cfg)
    ∧ (getFirst params (resolveSortParam cfg.prefixOption) = some "" →
      readSorting cfg params = normalizedDefaultSorting cfg)
    ∧ (getFirst params (resolveSortParam cfg.prefixOption)
        = some SORT_NONE_SENTINEL →
      readSorting cfg params = [])
    ∧ (∀ v : String,
        getFirst params (resolveSortParam cfg.prefixOption) = some v →
        v ≠ "" → v ≠ SORT_NONE_SENTINEL → v ∉ cfg.allowedColumnIds →
        readSorting cfg params = normalizedDefaultSorting cfg)
    ∧ (∀ v : String,
        getFirst params (resolveSortParam cfg.prefixOption) = some v →
        v ≠ "" → v ≠ SORT_NONE_SENTINEL → v ∈ cfg.allowedColumnIds →
        readSorting cfg params
          = [⟨v, getFirst params (resolveDirectionParam cfg.prefixOption)
              == some "desc"⟩])
    ∧ (normalizedDefaultSorting cfg = []
        ∨ ∃ e : ColumnSort, normalizedDefaultSorting cfg = [e]
            ∧ e.id ∈ cfg.allowedColumnIds) :=
  ⟨readSorting_of_none cfg params,
   readSorting_of_empty cfg params,
   readSorting_of_sentinel cfg params,
   fun _ hv hne hns hnm => readSorting_of_not_allowed cfg params hv hne hns hnm,
   fun _ hv hne hns hmem => readSorting_of_allowed cfg params hv hne hns hmem,
   normalizeSorting_shape cfg.defaultSorting cfg.allowedColumnIds⟩

/-- C5 witness: the five read-path cases at concrete query strings, for
a prefixed controller with allow-list [name, status] and default
[name asc]. -/
theorem C5_witness :
    readSorting ⟨["name", "status"], [⟨"name", false⟩], some "t", "/p"⟩ []
      = [⟨"name", false⟩]
    ∧ readSorting ⟨["name", "status"], [⟨"name", false⟩], some "t", "/p"⟩
        [("t_sort", "")] = [⟨"name", false⟩]
    ∧ readSorting ⟨["name", "status"], [⟨"name", false⟩], some "t", "/p"⟩
        [("t_sort", "none")] = []
    ∧ readSorting ⟨["name", "status"], [⟨"name", false⟩], some "t", "/p"⟩
        [("t_sort", "bogus")] = [⟨"name", false⟩]
    ∧ readSorting ⟨["name", "status"], [⟨"name", false⟩], some "t", "/p"⟩
        [("t_sort", "status"), ("t_dir", "desc")] = [⟨"status", true⟩] := by
  refine ⟨?_, ?_, ?_, ?_, ?_⟩
  · rw [(C5_read_path_case_analysis
      ⟨["name", "status"], [⟨"name", false⟩], some "t", "/p"⟩ []).1 rfl]
    rfl
  · rw [(C5_read_path_case_analysis
      ⟨["name", "status"], [⟨"name", false⟩], some "t", "/p"⟩
      [("t_sort", "")]).2.1 rfl]
    rfl
  · exact (C5_read_path_case_analysis
      ⟨["name", "status"], [⟨"name", false⟩], some "t", "/p"⟩
      [("t_sort", "none")]).2.2.1 rfl
  · rw [(C5_read_path_case_analysis
      ⟨["name", "status"], [⟨"name", false⟩], some "t", "/p"⟩
      [("t_sort", "bogus")]).2.2.2.1 "bogus" rfl (by decide) (by decide)
      (by decide)]
    rfl
  · rw [(C5_read_path_case_analysis
      ⟨["name", "status"], [⟨"name", false⟩], some "t", "/p"⟩
      [("t_sort", "status"), ("t_dir", "desc")]).2.2.2.2.1 "status" rfl
      (by decide) (by decide) (by decide)]
    rfl

/-- C7: when the normalization of the requested next sort state equals
the current read-path sort state by value, onSortingChange performs no
navigation at all and leaves the query string unchanged. -/
theorem C7_noop_when_same (cfg : UrlSortingConfig) (params : SearchParams)
    (requested : SortingState)
    (h : normalizeSorting requested cfg.allowedColumnIds
      = readSorting cfg params) :
    onSortingChange cfg params requested = ⟨params, none⟩ := by
  simp only [onSortingChange, h]
  rw [if_pos (isSameSorting_self (readSorting cfg params))]

/-- C7 witness: re-requesting the current (default) sort state produces
no navigation and keeps the query string. -/
theorem C7_witness :
    onSortingChange ⟨["name"], [⟨"name", false⟩], none, "/p"⟩
        [("foo", "1")] [⟨"name", false⟩]
      = ⟨[("foo", "1")], none⟩ :=
  C7_noop_when_same ⟨["name"], [⟨"name", false⟩], none, "/p"⟩
    [("foo", "1")] [⟨"name", false⟩] rfl

/-- C10 counterexample: the claim quantifies over every URL whose sort
parameter names an allow-listed column. With the empty string
allow-listed and a descending default, the empty sort value is treated
as falsy, so the read yields the descending default although the
direction parameter is absent; and with the sentinel "none"
allow-listed, sort=none&dir=desc yields the empty state, not a
descending entry. -/
theorem C10_counterexample :
    readSorting ⟨[""], [⟨"", true⟩], none, "/p"⟩ [("sort", "")]
      = [⟨"", true⟩]
    ∧ getFirst [("sort", "")] "dir" = none
    ∧ [(⟨"", true⟩ : ColumnSort)] ≠ [⟨"", false⟩]
    ∧ readSorting ⟨["none"], [], none, "/p"⟩
        [("sort", "none"), ("dir", "desc")] = []
    ∧ ([] : SortingState) ≠ [⟨"none", true⟩] :=
  ⟨rfl, rfl, by decide, rfl, by decide⟩

/-- C10 amended: on the read path, for every URL whose sort parameter
names an allow-listed column that is non-empty and distinct from the
sentinel "none", the read result is descending exactly when the
direction parameter is present with the exact string "desc"; any other
value of the direction parameter, including its absence, yields
ascending. -/
theorem C10_direction_strict_desc (cfg : UrlSortingConfig)
    (params : SearchParams) (v : String)
    (hv : getFirst params (resolveSortParam cfg.prefixOption) = some v)
    (hmem : v ∈ cfg.allowedColumnIds) (hne : v ≠ "")
    (hns : v ≠ SORT_NONE_SENTINEL) :
    (readSorting cfg params = [⟨v, true⟩]
      ↔ getFirst params (resolveDirectionParam cfg.prefixOption)
          = some "desc")
    ∧ (readSorting cfg params = [⟨v, false⟩]
      ↔ getFirst params (resolveDirectionParam cfg.prefixOption)
          ≠ some "desc") := by
  rw [readSorting_of_allowed cfg params hv hne hns hmem]
  constructor
  · constructor
    · intro h
      have hb : (getFirst params (resolveDirectionParam cfg.prefixOption)
          == some "desc") = true := by
        have := List.head_eq_of_cons_eq h
        simpa using congrArg ColumnSort.desc this
      exact eq_of_beq hb
    · intro h
      rw [h]
      simp
  · constructor
    · intro h hcon
      have hb : (getFirst params (resolveDirectionParam cfg.prefixOption)
          == some "desc") = false := by
        have := List.head_eq_of_cons_eq h
        simpa using congrArg ColumnSort.desc this
      rw [hcon] at hb
      simp at hb
    · intro h
      have hb : (getFirst params (resolveDirectionParam cfg.prefixOption)
          == some "desc") = false := by
        cases hg : getFirst params (resolveDirectionParam cfg.prefixOption)
          == some "desc"
        · rfl
        · exact absurd (eq_of_beq hg) h
      rw [hb]

/-- C10 witness: with dir=DESC (wrong case) the read is ascending; with
dir=desc it is descending. -/
theorem C10_witness :
    readSorting ⟨["status"], [], none, "/p"⟩
        [("sort", "status"), ("dir", "DESC")] = [⟨"status", false⟩]
    ∧ readSorting ⟨["status"], [], none, "/p"⟩
        [("sort", "status"), ("dir", "desc")] = [⟨"status", true⟩] := by
  constructor
  · exact (C10_direction_strict_desc ⟨["status"], [], none, "/p"⟩
      [("sort", "status"), ("dir", "DESC")] "status" rfl (by decide)
      (by decide) (by decide)).2.mpr (by decide)
  · exact (C10_direction_strict_desc ⟨["status"], [], none, "/p"⟩
      [("sort", "status"), ("dir", "desc")] "status" rfl (by decide)
      (by decide) (by decide)).1.mpr rfl

/-- C6 counterexample: a normalized, non-empty, non-default sort state
whose column id is the empty string (and allow-listed) does not round
trip: the write encodes sort= with an empty value, which the read path
treats as falsy, falling back to the (empty) normalized default. -/
theorem C6_counterexample :
    normalizeSorting [⟨"", false⟩] [""] = [⟨"", false⟩]
    ∧ ([⟨"", false⟩] : SortingState) ≠ []
    ∧ ([⟨"", false⟩] : SortingState)
        ≠ normalizedDefaultSorting ⟨[""], [], none, "/p"⟩
    ∧ readSorting ⟨[""], [], none, "/p"⟩
        (onSortingChange ⟨[""], [], none, "/p"⟩ [] [⟨"", false⟩]).params = []
    ∧ ([] : SortingState) ≠ [⟨"", false⟩] :=
  ⟨rfl, by decide, by decide, rfl, by decide⟩

/-- C6 amended: for every sort state S that is normalized (single
allow-listed entry), non-empty, not equal to the normalized default,
and whose column id is neither the sentinel "none" nor the empty
string, writing S via the write path and re-reading the resulting
query string via the read path yields S. -/
theorem C6_round_trip (cfg : UrlSortingConfig) (params : SearchParams)
    (S : SortingState)
    (hnorm : normalizeSorting S cfg.allowedColumnIds = S)
    (hne : S ≠ []) (hnd : S ≠ normalizedDefaultSorting cfg)
    (hid : ∀ e ∈ S, e.id ≠ SORT_NONE_SENTINEL ∧ e.id ≠ "") :
    readSorting cfg (onSortingChange cfg params S).params = S := by
  rcases normalizeSorting_shape S cfg.allowedColumnIds with h0 | ⟨e, h0, he⟩
  · rw [hnorm] at h0
    exact absurd h0 hne
  · rw [hnorm] at h0
    subst h0
    obtain ⟨hens, hee⟩ := hid e (by simp)
    have hsd := sortParam_ne_directionParam cfg.prefixOption
    simp only [onSortingChange, hnorm]
    by_cases hsame : isSameSorting [e] (readSorting cfg params) = true
    · rw [if_pos hsame]
      exact ((isSameSorting_iff (by simp)
        (readSorting_length_le cfg params)).mp hsame).symm
    · rw [if_neg hsame, if_neg (by simp : ¬(([e] : SortingState).length = 0))]
      have hnds : ¬(isSameSorting [e] (normalizedDefaultSorting cfg) = true) := by
        intro hcon
        exact hnd ((isSameSorting_iff (by simp)
          (normalizeSorting_length_le cfg.defaultSorting
            cfg.allowedColumnIds)).mp hcon)
      rw [if_neg hnds]
      dsimp only
      have h1 : getFirst (setFirst (setFirst params
          (resolveSortParam cfg.prefixOption) e.id)
          (resolveDirectionParam cfg.prefixOption)
          (if e.desc then "desc" else "asc"))
          (resolveSortParam cfg.prefixOption) = some e.id := by
        rw [getFirst_setFirst_ne _ _ (Ne.symm hsd), getFirst_setFirst_self]
      rw [readSorting_of_allowed cfg _ h1 hee hens he, getFirst_setFirst_self]
      cases e with
      | mk id desc =>
        cases desc
        · rw [show ((some (if false then "desc" else "asc")
            == some "desc") = false) from by decide]
        · rw [show ((some (if true then "desc" else "asc")
            == some "desc") = true) from by decide]

/-- C6 witness: the state [status desc] round-trips through the URL for
a controller with allow-list [name, status] and default [name asc]. -/
theorem C6_witness :
    readSorting ⟨["name", "status"], [⟨"name", false⟩], none, "/p"⟩
        (onSortingChange ⟨["name", "status"], [⟨"name", false⟩], none, "/p"⟩
          [("foo", "1")] [⟨"status", true⟩]).params
      = [⟨"status", true⟩] :=
  C6_round_trip ⟨["name", "status"], [⟨"name", false⟩], none, "/p"⟩
    [("foo", "1")] [⟨"status", true⟩] rfl (by decide) (by decide) (by decide)

/-! ### Write-path computation lemmas -/

theorem onSortingChange_of_empty (cfg : UrlSortingConfig)
    (params : SearchParams) (requested : SortingState)
    (h0 : normalizeSorting requested cfg.allowedColumnIds = [])
    (hsame : ¬ isSameSorting (normalizeSorting requested cfg.allowedColumnIds)
      (readSorting cfg params) = true) :
    onSortingChange cfg params requested
      = ⟨deleteAll (setFirst params (resolveSortParam cfg.prefixOption)
            SORT_NONE_SENTINEL) (resolveDirectionParam cfg.prefixOption),
         some (cfg.pathname,
           deleteAll (setFirst params (resolveSortParam cfg.prefixOption)
             SORT_NONE_SENTINEL) (resolveDirectionParam cfg.prefixOption))⟩ := by
  simp only [onSortingChange]
  rw [if_neg hsame, h0]
  rfl

theorem normalizedDefaultSorting_length_le (cfg : UrlSortingConfig) :
    (normalizedDefaultSorting cfg).length ≤ 1 :=
  normalizeSorting_length_le cfg.defaultSorting cfg.allowedColumnIds

theorem onSortingChange_of_default (cfg : UrlSortingConfig)
    (params : SearchParams) (requested : SortingState) (e : ColumnSort)
    (h0 : normalizeSorting requested cfg.allowedColumnIds = [e])
    (hdef : ([e] : SortingState) = normalizedDefaultSorting cfg)
    (hsame : ¬ isSameSorting (normalizeSorting requested cfg.allowedColumnIds)
      (readSorting cfg params) = true) :
    onSortingChange cfg params requested
      = ⟨deleteAll (deleteAll params (resolveSortParam cfg.prefixOption))
            (resolveDirectionParam cfg.prefixOption),
         some (cfg.pathname,
           deleteAll (deleteAll params (resolveSortParam cfg.prefixOption))
             (resolveDirectionParam cfg.prefixOption))⟩ := by
  simp only [onSortingChange]
  rw [if_neg hsame, h0, if_neg (by simp : ¬(([e] : SortingState).length = 0)),
    if_pos ((isSameSorting_iff (by simp)
      (normalizedDefaultSorting_length_le cfg)).mpr hdef)]

theorem onSortingChange_of_single (cfg : UrlSortingConfig)
    (params : SearchParams) (requested : SortingState) (e : ColumnSort)
    (h0 : normalizeSorting requested cfg.allowedColumnIds = [e])
    (hdef : ([e] : SortingState) ≠ normalizedDefaultSorting cfg)
    (hsame : ¬ isSameSorting (normalizeSorting requested cfg.allowedColumnIds)
      (readSorting cfg params) = true) :
    onSortingChange cfg params requested
      = ⟨setFirst (setFirst params (resolveSortParam cfg.prefixOption) e.id)
            (resolveDirectionParam cfg.prefixOption)
            (if e.desc then "desc" else "asc"),
         some (cfg.pathname,
           setFirst (setFirst params (resolveSortParam cfg.prefixOption) e.id)
             (resolveDirectionParam cfg.prefixOption)
             (if e.desc then "desc" else "asc"))⟩ := by
  simp only [onSortingChange]
  rw [if_neg hsame, h0, if_neg (by simp : ¬(([e] : SortingState).length = 0)),
    if_neg (fun hcon => hdef ((isSameSorting_iff (by simp)
      (normalizedDefaultSorting_length_le cfg)).mp hcon))]

/-- C8: whenever the normalized next sort state differs from the
current one, the rewritten query string (a) sets the sort parameter to
the sentinel "none" and removes the direction parameter if the next
state is empty, (b) deletes both parameters if the (non-empty) next
state equals the normalized default, and (c) otherwise sets the sort
parameter to the column id and the direction parameter to "asc" or
"desc" according to the descending flag. -/
theorem C8_write_encoding (cfg : UrlSortingConfig) (params : SearchParams)
    (requested : SortingState)
    (hdiff : normalizeSorting requested cfg.allowedColumnIds
      ≠ readSorting cfg params) :
    (normalizeSorting requested cfg.allowedColumnIds = [] →
      getFirst (onSortingChange cfg params requested).params
          (resolveSortParam cfg.prefixOption) = some SORT_NONE_SENTINEL
      ∧ getFirst (onSortingChange cfg params requested).params
          (resolveDirectionParam cfg.prefixOption) = none)
    ∧ (∀ e : ColumnSort,
        normalizeSorting requested cfg.allowedColumnIds = [e] →
        ([e] : SortingState) = normalizedDefaultSorting cfg →
        getFirst (onSortingChange cfg params requested).params
            (resolveSortParam cfg.prefixOption) = none
        ∧ getFirst (onSortingChange cfg params requested).params
            (resolveDirectionParam cfg.prefixOption) = none)
    ∧ (∀ e : ColumnSort,
        normalizeSorting requested cfg.allowedColumnIds = [e] →
        ([e] : SortingState) ≠ normalizedDefaultSorting cfg →
        getFirst (onSortingChange cfg params requested).params
            (resolveSortParam cfg.prefixOption) = some e.id
        ∧ getFirst (onSortingChange cfg params requested).params
            (resolveDirectionParam cfg.prefixOption)
          = some (if e.desc then "desc" else "asc")) := by
  have hsame : ¬ isSameSorting (normalizeSorting requested cfg.allowedColumnIds)
      (readSorting cfg params) = true := fun hcon =>
    hdiff ((isSameSorting_iff
      (normalizeSorting_length_le requested cfg.allowedColumnIds)
      (readSorting_length_le cfg params)).mp hcon)
  have hsd := sortParam_ne_directionParam cfg.prefixOption
  refine ⟨?_, ?_, ?_⟩
  · intro h0
    rw [onSortingChange_of_empty cfg params requested h0 hsame]
    constructor
    · rw [getFirst_deleteAll_ne _ (Ne.symm hsd), getFirst_setFirst_self]
    · exact getFirst_deleteAll_self _ _
  · intro e h0 hdef
    rw [onSortingChange_of_default cfg params requested e h0 hdef hsame]
    constructor
    · rw [getFirst_deleteAll_ne _ (Ne.symm hsd)]
      exact getFirst_deleteAll_self _ _
    · exact getFirst_deleteAll_self _ _
  · intro e h0 hdef
    rw [onSortingChange_of_single cfg params requested e h0 hdef hsame]
    constructor
    · rw [getFirst_setFirst_ne _ _ (Ne.symm hsd), getFirst_setFirst_self]
    · exact getFirst_setFirst_self _ _ _

/-- C8 witness: the three write branches at concrete inputs, with
allow-list [name, status] and default [name asc]. -/
theorem C8_witness :
    (getFirst (onSortingChange ⟨["name", "status"], [⟨"name", false⟩], none,
          "/p"⟩ [("foo", "1")] []).params "sort" = some "none"
      ∧ getFirst (onSortingChange ⟨["name", "status"], [⟨"name", false⟩],
          none, "/p"⟩ [("foo", "1")] []).params "dir" = none)
    ∧ (getFirst (onSortingChange ⟨["name", "status"], [⟨"name", false⟩],
          none, "/p"⟩ [("sort", "status")] [⟨"name", false⟩]).params "sort"
        = none
      ∧ getFirst (onSortingChange ⟨["name", "status"], [⟨"name", false⟩],
          none, "/p"⟩ [("sort", "status")] [⟨"name", false⟩]).params "dir"
        = none)
    ∧ (getFirst (onSortingChange ⟨["name", "status"], [⟨"name", false⟩],
          none, "/p"⟩ [] [⟨"status", true⟩]).params "sort" = some "status"
      ∧ getFirst (onSortingChange ⟨["name", "status"], [⟨"name", false⟩],
          none, "/p"⟩ [] [⟨"status", true⟩]).params "dir" = some "desc") := by
  refine ⟨?_, ?_, ?_⟩
  · exact (C8_write_encoding ⟨["name", "status"], [⟨"name", false⟩], none,
      "/p"⟩ [("foo", "1")] [] (by decide)).1 rfl
  · exact (C8_write_encoding ⟨["name", "status"], [⟨"name", false⟩], none,
      "/p"⟩ [("sort", "status")] [⟨"name", false⟩] (by decide)).2.1
      ⟨"name", false⟩ rfl (by decide)
  · exact (C8_write_encoding ⟨["name", "status"], [⟨"name", false⟩], none,
      "/p"⟩ [] [⟨"status", true⟩] (by decide)).2.2 ⟨"status", true⟩ rfl
      (by decide)

/-- C9: every navigation produced by the write path goes to the same
pathname with the newly held query string; all parameters other than
the controller's own sort and direction parameters are preserved with
their names, values and relative order; and when neither controlled
parameter was present before, the output is the existing parameters
first, followed only by controlled parameters. -/
theorem C9_navigation_frame (cfg : UrlSortingConfig) (params : SearchParams)
    (requested : SortingState) (path : String) (q : SearchParams)
    (hnav : (onSortingChange cfg params requested).nav = some (path, q)) :
    path = cfg.pathname
    ∧ q = (onSortingChange cfg params requested).params
    ∧ q.filter (fun kv => kv.1 != resolveSortParam cfg.prefixOption
          && kv.1 != resolveDirectionParam cfg.prefixOption)
      = params.filter (fun kv => kv.1 != resolveSortParam cfg.prefixOption
          && kv.1 != resolveDirectionParam cfg.prefixOption)
    ∧ (getFirst params (resolveSortParam cfg.prefixOption) = none →
       getFirst params (resolveDirectionParam cfg.prefixOption) = none →
        ∃ tail : SearchParams, q = params ++ tail
          ∧ ∀ kv ∈ tail, kv.1 = resolveSortParam cfg.prefixOption
              ∨ kv.1 = resolveDirectionParam cfg.prefixOption) := by
  have hsd := sortParam_ne_directionParam cfg.prefixOption
  by_cases hsame : isSameSorting
      (normalizeSorting requested cfg.allowedColumnIds)
      (readSorting cfg params) = true
  · have heq : onSortingChange cfg params requested = ⟨params, none⟩ := by
      simp only [onSortingChange]
      rw [if_pos hsame]
    rw [heq] at hnav
    simp at hnav
  · rcases normalizeSorting_shape requested cfg.allowedColumnIds
      with h0 | ⟨e, h0, _⟩
    · rw [onSortingChange_of_empty cfg params requested h0 hsame] at hnav ⊢
      dsimp only at hnav ⊢
      rw [Option.some.injEq, Prod.mk.injEq] at hnav
      obtain ⟨hp, hq⟩ := hnav
      subst hp
      subst hq
      refine ⟨rfl, rfl, ?_, ?_⟩
      · rw [filter_deleteAll _ _ _ (fun w => by simp),
          filter_setFirst _ _ _ _ (fun w => by simp)]
      · intro hs hd
        refine ⟨[(resolveSortParam cfg.prefixOption, SORT_NONE_SENTINEL)],
          ?_, ?_⟩
        · rw [setFirst_eq_append params _ hs, deleteAll_append,
            deleteAll_eq_self params hd, deleteAll_cons, if_neg hsd]
          rfl
        · intro kv hkv
          simp at hkv
          simp [hkv]
    · by_cases hdef : ([e] : SortingState) = normalizedDefaultSorting cfg
      · rw [onSortingChange_of_default cfg params requested e h0 hdef hsame]
          at hnav ⊢
        dsimp only at hnav ⊢
        rw [Option.some.injEq, Prod.mk.injEq] at hnav
        obtain ⟨hp, hq⟩ := hnav
        subst hp
        subst hq
        refine ⟨rfl, rfl, ?_, ?_⟩
        · rw [filter_deleteAll _ _ _ (fun w => by simp),
            filter_deleteAll _ _ _ (fun w => by simp)]
        · intro hs hd
          refine ⟨[], ?_, by simp⟩
          rw [deleteAll_eq_self params hs, deleteAll_eq_self params hd]
          simp
      · rw [onSortingChange_of_single cfg params requested e h0 hdef hsame]
          at hnav ⊢
        dsimp only at hnav ⊢
        rw [Option.some.injEq, Prod.mk.injEq] at hnav
        obtain ⟨hp, hq⟩ := hnav
        subst hp
        subst hq
        refine ⟨rfl, rfl, ?_, ?_⟩
        · rw [filter_setFirst _ _ _ _ (fun w => by simp),
            filter_setFirst _ _ _ _ (fun w => by simp)]
        · intro hs hd
          have h1 : getFirst (params ++ [(resolveSortParam cfg.prefixOption,
              e.id)]) (resolveDirectionParam cfg.prefixOption) = none := by
            rw [getFirst_append_of_none _ _ hd, getFirst_cons, if_neg hsd]
            rfl
          refine ⟨[(resolveSortParam cfg.prefixOption, e.id),
            (resolveDirectionParam cfg.prefixOption,
              if e.desc then "desc" else "asc")], ?_, ?_⟩
          · rw [setFirst_eq_append params e.id hs, setFirst_eq_append _ _ h1,
              List.append_assoc]
            rfl
          · intro kv hkv
            simp at hkv
            rcases hkv with h | h <;> simp [h]

/-- C9 witness: starting from ?foo=1, setting [status desc] on a
controller with prefix g navigates to the same path with foo first and
only controlled parameters appended. -/
theorem C9_witness :
    "/p" = "/p"
    ∧ [("foo", "1"), ("g_sort", "status"), ("g_dir", "desc")].filter
        (fun kv => kv.1 != resolveSortParam (some "g")
          && kv.1 != resolveDirectionParam (some "g"))
      = [("foo", "1")].filter
        (fun kv => kv.1 != resolveSortParam (some "g")
          && kv.1 != resolveDirectionParam (some "g"))
    ∧ ∃ tail : SearchParams,
        [("foo", "1"), ("g_sort", "status"), ("g_dir", "desc")]
          = [("foo", "1")] ++ tail
        ∧ ∀ kv ∈ tail, kv.1 = resolveSortParam (some "g")
            ∨ kv.1 = resolveDirectionParam (some "g") := by
  have h := C9_navigation_frame ⟨["status"], [], some "g", "/p"⟩
    [("foo", "1")] [⟨"status", true⟩] "/p"
    [("foo", "1"), ("g_sort", "status"), ("g_dir", "desc")] rfl
  exact ⟨h.1.symm ▸ rfl, h.2.2.1, h.2.2.2 rfl rfl⟩
